import Mathlib

/-!
Verification of the answer-normalization, grading, extraction and scheduling
logic of the teacheraid repository.

Strings are modelled as lists of Unicode codepoints (`List Nat`); every
definition is a structural (kernel-reducible) translation of the TypeScript
source in `src/lib/ocr/extract-fields.ts`, the answer extractor in the
scanner grading route, and the slot finder in
`src/app/api/calendar/schedule/route.ts`.  JavaScript numbers are modelled
as exact rationals (`ℚ`): every comparison the claims exercise is far from
any double-rounding boundary, and thresholds such as 0.75 and 0.9 denote
their decimal values.
-/

attribute [local semireducible] Rat.add Rat.sub Rat.mul Rat.inv Rat.ofScientific

/-- Codepoints of a string literal, the bridge from concrete test strings to
the `List Nat` model. -/
def codes (s : String) : List Nat := s.data.map Char.toNat

/-- JavaScript whitespace (`\s`, also used by `String.prototype.trim`):
tab, LF, VT, FF, CR, space, NBSP, and the Unicode space separators. -/
def jsWs (c : Nat) : Bool :=
  c = 9 || c = 10 || c = 11 || c = 12 || c = 13 || c = 32 || c = 160 ||
  c = 5760 || (8192 ≤ c && c ≤ 8202) || c = 8232 || c = 8233 ||
  c = 8239 || c = 8287 || c = 12288 || c = 65279

/-- Characters removed by the OCR-artifact quote strip `/['"''""]/g`. -/
def quoteCh (c : Nat) : Bool :=
  c = 39 || c = 34 || c = 8216 || c = 8217 || c = 8220 || c = 8221

/-- Trailing punctuation class `[.,;:!?]` stripped at the end of an answer. -/
def endPunct (c : Nat) : Bool :=
  c = 46 || c = 44 || c = 59 || c = 58 || c = 33 || c = 63

/-- ASCII digit. -/
def digitCh (c : Nat) : Bool := 48 ≤ c && c ≤ 57

/-- Lower-case letters a–e, the multiple-choice letter class after
lower-casing. -/
def aeLower (c : Nat) : Bool := 97 ≤ c && c ≤ 101

/-- Letter A–E in either case (regex class `[A-Ea-e]`). -/
def aeAny (c : Nat) : Bool := (65 ≤ c && c ≤ 69) || (97 ≤ c && c ≤ 101)

/-- ASCII lower-casing, the effect of `toLowerCase` on the codepoints that
occur here (no non-ASCII cased letters are involved). -/
def toLow (c : Nat) : Nat := if 65 ≤ c && c ≤ 90 then c + 32 else c

/-- ASCII upper-casing (`toUpperCase` on a single letter). -/
def upperCh (c : Nat) : Nat := if 97 ≤ c && c ≤ 122 then c - 32 else c

/-- JavaScript `String.prototype.trim`: drop whitespace from both ends. -/
def trimL (l : List Nat) : List Nat :=
  ((l.dropWhile (fun c => jsWs c)).reverse.dropWhile (fun c => jsWs c)).reverse

/-- Lower-case every character (`toLowerCase`). -/
def lowerAll (l : List Nat) : List Nat := l.map toLow

/-- Remove the fixed quote characters (`replace(/['"''""]/g, '')`). -/
def removeQuotes (l : List Nat) : List Nat := l.filter (fun c => !quoteCh c)

/-- Collapse each maximal whitespace run to a single space
(`replace(/\s+/g, ' ')`). -/
def collapseWs : List Nat → List Nat
  | [] => []
  | c :: rest =>
    match rest with
    | [] => if jsWs c then [32] else [c]
    | d :: _ =>
      if jsWs c then (if jsWs d then collapseWs rest else 32 :: collapseWs rest)
      else c :: collapseWs rest

/-- Strip a trailing run of `[.,;:!?]` (`replace(/[.,;:!?]+$/g, '')`). -/
def stripEndPunct (l : List Nat) : List Nat :=
  (l.reverse.dropWhile (fun c => endPunct c)).reverse

/-- Steps 1–3 of `normalizeAnswer`, shared by all question types: trim,
lower-case, strip quotes, collapse whitespace, strip trailing punctuation. -/
def sharedNorm (l : List Nat) : List Nat :=
  stripEndPunct (collapseWs (removeQuotes (lowerAll (trimL l))))

/-- Question types of the grading engine (`QuestionType` in the source). -/
inductive QuestionType
  | multiple_choice
  | true_false
  | fill_in
  | math
  | short_answer
  | unknown
deriving DecidableEq

/-- Strings recognised as true (`['true','t','yes','y','1','correct']`). -/
def trueWords : List (List Nat) :=
  [codes "true", codes "t", codes "yes", codes "y", codes "1", codes "correct"]

/-- Strings recognised as false (`['false','f','no','n','0','incorrect']`). -/
def falseWords : List (List Nat) :=
  [codes "false", codes "f", codes "no", codes "n", codes "0", codes "incorrect"]

/-- Replace Unicode multiplication, division and minus signs by `*`, `/`,
`-` (the math-type character substitutions). -/
def mathRepl (c : Nat) : Nat :=
  if c = 215 then 42 else if c = 247 then 47 else if c = 8722 then 45 else c

/-- Math-type canonicalization: remove whitespace, substitute the Unicode
operators, strip thousands-separator commas (in source order). -/
def mathNorm (l : List Nat) : List Nat :=
  ((l.filter (fun c => !jsWs c)).map mathRepl).filter (fun c => c ≠ 44)

/-- Translation of `normalizeAnswer`.  The multiple-choice regex
`/^([a-e])[\.\)\:]?\s*/` matches exactly when the first character is a
lower-case letter a–e (the optional punctuation and `\s*` can match the
empty string), and returns that letter; the separate bare-single-letter
test in the source is then subsumed. -/
def normalizeAnswer (answer : List Nat) (t : QuestionType) : List Nat :=
  if answer = [] then []
  else
    let n := sharedNorm answer
    match t with
    | .multiple_choice =>
      match n with
      | c :: rest => if aeLower c then [c] else c :: rest
      | [] => []
    | .true_false =>
      if n ∈ trueWords then codes "true"
      else if n ∈ falseWords then codes "false"
      else n
    | .math => mathNorm n
    | _ => n

/-- Digit prefix of a string (`\d+` at the current position). -/
def takeDigits (l : List Nat) : List Nat := l.takeWhile (fun c => digitCh c)

/-- Remainder after the digit prefix. -/
def dropDigits (l : List Nat) : List Nat := l.dropWhile (fun c => digitCh c)

/-- Numeric value of a digit string (the effect of `parseInt` on it). -/
def digitsVal (ds : List Nat) : Nat := ds.foldl (fun a c => a * 10 + (c - 48)) 0

/-- Translation of the `parseFloat` call on the strings reaching it here:
skip leading whitespace, optional sign, integer and fractional digit runs,
optional exponent; `none` models `NaN` (no digits).  The value is the exact
decimal as a rational; the source holds it in a double, whose rounding is
irrelevant to every comparison exercised by the claims. -/
def parseFloatQ (l : List Nat) : Option ℚ :=
  let l1 := l.dropWhile (fun c => jsWs c)
  let sl : ℚ × List Nat :=
    match l1 with
    | 43 :: r => (1, r)
    | 45 :: r => (-1, r)
    | r => (1, r)
  let ip := takeDigits sl.2
  let l3 := dropDigits sl.2
  let fl : List Nat × List Nat :=
    match l3 with
    | 46 :: r => (takeDigits r, dropDigits r)
    | r => ([], r)
  if ip = [] && fl.1 = [] then none
  else
    let mant : ℚ := (digitsVal ip : ℚ) + (digitsVal fl.1 : ℚ) / ((10 : ℚ) ^ fl.1.length)
    let ex : Option (Bool × Nat) :=
      match fl.2 with
      | e :: r =>
        if e = 101 || e = 69 then
          match r with
          | 43 :: rr => if takeDigits rr = [] then none else some (false, digitsVal (takeDigits rr))
          | 45 :: rr => if takeDigits rr = [] then none else some (true, digitsVal (takeDigits rr))
          | rr => if takeDigits rr = [] then none else some (false, digitsVal (takeDigits rr))
        else none
      | [] => none
    match ex with
    | none => some (sl.1 * mant)
    | some (neg, k) =>
      if neg then some (sl.1 * mant / ((10 : ℚ) ^ k)) else some (sl.1 * mant * ((10 : ℚ) ^ k))

/-- Match of the fraction form `^(-?\d+)\/(\d+)$`, returning numerator and
denominator values. -/
def fracMatch (l : List Nat) : Option (ℤ × ℕ) :=
  let sr : ℤ × List Nat := match l with | 45 :: r => (-1, r) | r => (1, r)
  let ds := takeDigits sr.2
  if ds = [] then none
  else
    match dropDigits sr.2 with
    | 47 :: r2 =>
      let bs := takeDigits r2
      if bs ≠ [] && dropDigits r2 = [] then some (sr.1 * (digitsVal ds : ℤ), digitsVal bs) else none
    | _ => none

/-- Match of the percentage form `^(-?\d+(?:\.\d+)?)\s*%$`, returning the
numeric value of the captured decimal. -/
def percentMatch (l : List Nat) : Option ℚ :=
  let sr : ℚ × List Nat := match l with | 45 :: r => (-1, r) | r => (1, r)
  let ds := takeDigits sr.2
  if ds = [] then none
  else
    let r2 := dropDigits sr.2
    let fr : List Nat × List Nat :=
      match r2 with
      | 46 :: rr => if takeDigits rr = [] then ([], r2) else (takeDigits rr, dropDigits rr)
      | _ => ([], r2)
    match fr.2.dropWhile (fun c => jsWs c) with
    | [37] => some (sr.1 * ((digitsVal ds : ℚ) + (digitsVal fr.1 : ℚ) / ((10 : ℚ) ^ fr.1.length)))
    | _ => none

/-- Translation of `parseNumber`: fractions `a/b`, percentages `n%`
(divided by 100), then plain `parseFloat`; `none` models the `null` return.
A fraction with denominator 0 yields a non-finite double in the source
(`Infinity`/`NaN`); no finite rational exists, so it is modelled as `none`
(no claim exercises that path). -/
def parseNumber (l : List Nat) : Option ℚ :=
  match fracMatch l with
  | some (a, b) => if b = 0 then none else some ((a : ℚ) / (b : ℚ))
  | none =>
    match percentMatch l with
    | some q => some (q / 100)
    | none => parseFloatQ l

/-- Verdict triple produced by the per-type grading helpers. -/
structure Verdict where
  isCorrect : Bool
  confidence : ℚ
  needsReview : Bool
deriving DecidableEq

/-- Result record of `gradeQuestion` (`GradeResult` in the source). -/
structure GradeResult where
  isCorrect : Bool
  confidence : ℚ
  pointsEarned : ℚ
  needsReview : Bool
  feedback : Option String
deriving DecidableEq

/-- Options record of `gradeQuestion` with the destructuring defaults
already applied (`acceptedVariants = []`, `tolerance = 0.01` at call sites
that omit them). -/
structure GradeOptions where
  pointsPossible : ℚ
  acceptedVariants : List (List Nat)
  tolerance : ℚ

/-- One row-update of the Levenshtein dynamic-programming matrix: `bi` is
the current character of `b`, the first list the remaining characters of
`a`, `prev` the previous row from column `j-1` on, `left` the value just
written in the current row. -/
def levRowNext (bi : Nat) : List Nat → List Nat → Nat → List Nat
  | [], _, _ => []
  | aj :: arest, prev, left =>
    let diag := prev.headD 0
    let up := match prev with | _ :: p2 :: _ => p2 | _ => 0
    let cur := if bi = aj then diag else 1 + min diag (min left up)
    cur :: levRowNext bi arest prev.tail cur

/-- Iterate the matrix rows over the characters of `b`; `i` is the number
of rows already produced, `row` the last row. -/
def levRows (a : List Nat) : List Nat → Nat → List Nat → List Nat
  | [], _, row => row
  | bi :: brest, i, row => levRows a brest (i + 1) ((i + 1) :: levRowNext bi a row (i + 1))

/-- Levenshtein edit distance, the value `matrix[b.length][a.length]` of
the dynamic program in `calculateSimilarity`. -/
def levDist (a b : List Nat) : Nat :=
  (levRows a b 0 (List.range (a.length + 1))).getLastD 0

/-- Translation of `calculateSimilarity`: normalized edit-distance
similarity with the empty-string special cases. -/
def calculateSimilarity (a b : List Nat) : ℚ :=
  if a.length = 0 then (if b.length = 0 then 1 else 0)
  else if b.length = 0 then 0
  else 1 - (levDist a b : ℚ) / (max a.length b.length : ℚ)

/-- Split into maximal non-whitespace runs (the effect of `split(/\s+/)`
here: its possible leading empty piece is removed by the length filter that
always follows). -/
def splitWsAux : List Nat → List Nat → List (List Nat)
  | [], acc => if acc = [] then [] else [acc.reverse]
  | c :: rest, acc =>
    if jsWs c then (if acc = [] then splitWsAux rest [] else acc.reverse :: splitWsAux rest [])
    else splitWsAux rest (c :: acc)

/-- Words of a string: maximal non-whitespace runs. -/
def splitWsRuns (l : List Nat) : List (List Nat) := splitWsAux l []

/-- Deduplicate keeping first occurrences (the effect of building a `Set`). -/
def dedupAux : List (List Nat) → List (List Nat) → List (List Nat)
  | [], _ => []
  | w :: rest, seen => if w ∈ seen then dedupAux rest seen else w :: dedupAux rest (w :: seen)

/-- Deduplicated list. -/
def dedupL (l : List (List Nat)) : List (List Nat) := dedupAux l []

/-- Word set used by `calculateWordOverlap`: words longer than 2
characters, deduplicated. -/
def wordsOf (l : List Nat) : List (List Nat) :=
  dedupL ((splitWsRuns l).filter (fun w => 2 < w.length))

/-- Translation of `calculateWordOverlap`: shared-word count over the
larger word-set size. -/
def calculateWordOverlap (a b : List Nat) : ℚ :=
  let wa := wordsOf a
  let wb := wordsOf b
  if wa.length = 0 || wb.length = 0 then 0
  else ((wa.filter (fun w => w ∈ wb)).length : ℚ) / (max wa.length wb.length : ℚ)

/-- Whether `sub` occurs at the start of `hay`. -/
def startsWithL : List Nat → List Nat → Bool
  | _, [] => true
  | [], _ :: _ => false
  | h :: hs, s :: ss => h = s && startsWithL hs ss

/-- Whether `sub` occurs contiguously inside `hay` (JavaScript
`String.prototype.includes`; the empty string is contained in every
string). -/
def hasSub : List Nat → List Nat → Bool
  | [], sub => sub.isEmpty
  | h :: t, sub => startsWithL (h :: t) sub || hasSub t sub

/-- Translation of `gradeMultipleChoice`: exact membership in the
candidate-correct set, confidence 0.95 for a single-character answer. -/
def gradeMultipleChoice (student : List Nat) (correct : List (List Nat)) : Verdict :=
  ⟨decide (student ∈ correct), if student.length = 1 then 0.95 else 0.85, false⟩

/-- Translation of `gradeTrueFalse`: exact equality, confidence 0.95. -/
def gradeTrueFalse (student correct : List Nat) : Verdict :=
  ⟨decide (student = correct), 0.95, false⟩

/-- Fuzzy loop of `gradeFillIn`: the first candidate whose similarity
reaches 0.75 decides the verdict. -/
def fillInFuzzy (student : List Nat) : List (List Nat) → Verdict
  | [] => ⟨false, 0.8, false⟩
  | c :: rest =>
    let s := calculateSimilarity student c
    if 0.9 ≤ s then ⟨true, 0.85, false⟩
    else if 0.75 ≤ s then ⟨false, 0.6, true⟩
    else fillInFuzzy student rest

/-- Translation of `gradeFillIn`. -/
def gradeFillIn (student : List Nat) (correct : List (List Nat)) : Verdict :=
  if student ∈ correct then ⟨true, 0.95, false⟩ else fillInFuzzy student correct

/-- Translation of `gradeMath`: numeric comparison within relative
tolerance when both sides parse, else exact string fallback, else flagged
for review. -/
def gradeMath (student correct : List Nat) (tolerance : ℚ) : Verdict :=
  match parseNumber student, parseNumber correct with
  | some s, some c => ⟨decide (|s - c| ≤ |c * tolerance|), 0.9, false⟩
  | _, _ => if student = correct then ⟨true, 0.85, false⟩ else ⟨false, 0.5, true⟩

/-- Containment loop of `gradeShortAnswer`: substring in either
direction against any candidate. -/
def shortAnswerContain (student : List Nat) : List (List Nat) → Bool
  | [] => false
  | c :: rest => hasSub student c || hasSub c student || shortAnswerContain student rest

/-- Word-overlap loop of `gradeShortAnswer`: the first candidate with
overlap at least 0.5 decides. -/
def shortAnswerOverlap (student : List Nat) : List (List Nat) → Verdict
  | [] => ⟨false, 0.7, false⟩
  | c :: rest =>
    let v := calculateWordOverlap student c
    if 0.8 ≤ v then ⟨true, 0.7, true⟩
    else if 0.5 ≤ v then ⟨false, 0.5, true⟩
    else shortAnswerOverlap student rest

/-- Translation of `gradeShortAnswer`. -/
def gradeShortAnswer (student : List Nat) (correct : List (List Nat)) : Verdict :=
  if student ∈ correct then ⟨true, 0.95, false⟩
  else if shortAnswerContain student correct then ⟨true, 0.75, true⟩
  else shortAnswerOverlap student correct

/-- Dispatch on the question type (the `switch` in `gradeQuestion`); the
default case covers the `unknown` type: exact equality, confidence 0.5,
review always requested. -/
def gradeSwitch (t : QuestionType) (ns nc : List Nat) (all : List (List Nat))
    (tolerance : ℚ) : Verdict :=
  match t with
  | .multiple_choice => gradeMultipleChoice ns all
  | .true_false => gradeTrueFalse ns nc
  | .fill_in => gradeFillIn ns all
  | .math => gradeMath ns nc tolerance
  | .short_answer => gradeShortAnswer ns all
  | .unknown => ⟨decide (ns = nc), 0.5, true⟩

/-- Translation of `gradeQuestion`: normalize both answers, build the
candidate-correct set from the correct answer and the accepted variants,
dispatch by type, pay out all points exactly when correct, and attach the
fixed feedback note when review is needed. -/
def gradeQuestion (studentAnswer correctAnswer : List Nat) (questionType : QuestionType)
    (opts : GradeOptions) : GradeResult :=
  let ns := normalizeAnswer studentAnswer questionType
  let nc := normalizeAnswer correctAnswer questionType
  let all := nc :: opts.acceptedVariants.map (fun v => normalizeAnswer v questionType)
  let v := gradeSwitch questionType ns nc all opts.tolerance
  { isCorrect := v.isCorrect
    confidence := v.confidence
    pointsEarned := if v.isCorrect then opts.pointsPossible else 0
    needsReview := v.needsReview
    feedback := if v.needsReview then some "Manual review recommended" else none }

/-- Conflict test of `findNextAvailableSlot` on millisecond timestamps
(`ℤ`), the three-disjunct check of the source: candidate start inside the
booking, candidate end inside the booking, or candidate covering the
booking. -/
def slotConflict (cs ce bs be : ℤ) : Bool :=
  (decide (bs ≤ cs) && decide (cs < be)) ||
  (decide (bs < ce) && decide (ce ≤ be)) ||
  (decide (cs ≤ bs) && decide (be ≤ ce))

/-- Modelled from the spec: the half-open interval overlap predicate
"two intervals conflict if candidateStart < bookingEnd AND candidateEnd >
bookingStart" stated in section 4.4, step 5 — the reference against which
the source's conflict test is compared. -/
def overlapsHalfOpen (cs ce bs be : ℤ) : Prop := cs < be ∧ bs < ce

/-- Line-terminator characters (JavaScript regex `.` excludes them; `^`/`$`
with the `m` flag match around them). -/
def isLineTerm (c : Nat) : Bool := c = 10 || c = 13 || c = 8232 || c = 8233

/-- Whether every character can be matched by the regex `.`. -/
def noLineTerm (l : List Nat) : Bool := l.all (fun c => !isLineTerm c)

/-- Separator class `[.\)\s:\-]` of the line patterns. -/
def sepCh (c : Nat) : Bool := c = 46 || c = 41 || jsWs c || c = 58 || c = 45

/-- Whether the next position is whitespace or the end of the line (the
`(?:\s|$)` boundary). -/
def wsOrEnd : List Nat → Bool
  | [] => true
  | c :: _ => jsWs c

/-- Pattern `/^(\d+)[.\)\s:\-]*([A-Ea-e])(?:\s|$|[.\)])/i`: question number
and single letter.  The separator class contains no digits or letters, so
the greedy runs need no backtracking. -/
def matchP1 (l : List Nat) : Option (Nat × List Nat) :=
  let ds := takeDigits l
  if ds = [] then none
  else
    match (dropDigits l).dropWhile (fun c => sepCh c) with
    | c :: rest =>
      if aeAny c && (match rest with | [] => true | d :: _ => jsWs d || d = 46 || d = 41)
      then some (digitsVal ds, [c]) else none
    | [] => none

/-- Case-insensitive literal word match at the start of `l`, returning the
original-case prefix and the remainder. -/
def tryWord (l : List Nat) (w : List Nat) : Option (List Nat × List Nat) :=
  if (l.take w.length).map toLow = w then some (l.take w.length, l.drop w.length) else none

/-- Pattern `/^(\d+)[.\)\s:\-]*(true|false|t|f|yes|no)(?:\s|$)/i`:
alternatives tried in regex order, each requiring a whitespace-or-end
boundary; the capture keeps the original casing. -/
def matchP2 (l : List Nat) : Option (Nat × List Nat) :=
  let ds := takeDigits l
  if ds = [] then none
  else
    let r := (dropDigits l).dropWhile (fun c => sepCh c)
    let ws := [codes "true", codes "false", codes "t", codes "f", codes "yes", codes "no"]
    match ws.findSome? (fun w =>
      match tryWord r w with
      | some (orig, rest) => if wsOrEnd rest then some orig else none
      | none => none) with
    | some orig => some (digitsVal ds, orig)
    | none => none

/-- Pattern `/^[Qq#]?(\d+)[.\)\s:\-]+([A-Ea-e])(?:\s|$)/i`: optional
`Q`/`#` marker, then number, at least one separator, letter. -/
def matchP3 (l : List Nat) : Option (Nat × List Nat) :=
  let l2 := match l with
    | c :: rest => if c = 81 || c = 113 || c = 35 then rest else l
    | [] => l
  let ds := takeDigits l2
  if ds = [] then none
  else
    match dropDigits l2 with
    | c0 :: r0 =>
      if sepCh c0 then
        match (c0 :: r0).dropWhile (fun c => sepCh c) with
        | c :: rest => if aeAny c && wsOrEnd rest then some (digitsVal ds, [c]) else none
        | [] => none
      else none
    | [] => none

/-- Pattern `/^(\d+)\s*[=\-]\s*([A-Ea-e])(?:\s|$)/i`: `1 = A` and `1 - A`
forms. -/
def matchP4 (l : List Nat) : Option (Nat × List Nat) :=
  let ds := takeDigits l
  if ds = [] then none
  else
    match (dropDigits l).dropWhile (fun c => jsWs c) with
    | c :: r2 =>
      if c = 61 || c = 45 then
        match r2.dropWhile (fun c => jsWs c) with
        | d :: rest => if aeAny d && wsOrEnd rest then some (digitsVal ds, [d]) else none
        | [] => none
      else none
    | [] => none

/-- Pattern `/^(\d+)[.\)\s:\-]*\(?([A-Ea-e])\)?(?:\s|$)/i`: number and
possibly parenthesized letter.  If the optional `)` is present it is
consumed; when the boundary then fails, the backtracking alternative
(leaving `)` for the boundary) fails as well, since `)` is not whitespace. -/
def matchP5 (l : List Nat) : Option (Nat × List Nat) :=
  let ds := takeDigits l
  if ds = [] then none
  else
    let r := (dropDigits l).dropWhile (fun c => sepCh c)
    let r1 := match r with | 40 :: rest => rest | _ => r
    match r1 with
    | c :: rest =>
      if aeAny c then
        let rest2 := match rest with | 41 :: rr => rr | _ => rest
        if wsOrEnd rest2 then some (digitsVal ds, [c]) else none
      else none
    | [] => none

/-- Pattern `/^(\d+)[.\)\s:\-]+(.+)$/`: number, separators, free text.
Backtracking: `(.+)` takes everything after the maximal separator run when
non-empty, else the run gives back its last character; `.` cannot match a
line terminator and `$` (no `m` flag) only the very end, so any line
terminator in the remainder kills the match. -/
def matchP6 (l : List Nat) : Option (Nat × List Nat) :=
  let ds := takeDigits l
  if ds = [] then none
  else
    let r0 := dropDigits l
    match r0 with
    | c0 :: _ =>
      if sepCh c0 then
        let k := (r0.takeWhile (fun c => sepCh c)).length
        let rest := r0.drop k
        if rest ≠ [] then (if noLineTerm rest then some (digitsVal ds, rest) else none)
        else if 2 ≤ k then
          (if noLineTerm (r0.drop (k - 1)) then some (digitsVal ds, r0.drop (k - 1)) else none)
        else none
      else none
    | [] => none

/-- Pattern `/^[Qq#](\d+)[.\)\s:\-]+(.+)$/`: mandatory marker, then the
body of the previous pattern. -/
def matchP7 (l : List Nat) : Option (Nat × List Nat) :=
  match l with
  | c :: rest => if c = 81 || c = 113 || c = 35 then matchP6 rest else none
  | [] => none

/-- The ordered pattern cascade of the line tier. -/
def firstPattern (l : List Nat) : Option (Nat × List Nat) :=
  [matchP1, matchP2, matchP3, matchP4, matchP5, matchP6, matchP7].findSome? (fun p => p l)

/-- Lookup in the answers mapping (`answers[q]`; stored answers are never
empty, so object-falsiness coincides with absence). -/
def alookup (m : List (Nat × List Nat)) (q : Nat) : Option (List Nat) :=
  (m.find? (fun p => p.1 = q)).map (fun p => p.2)

/-- Record an answer only when the question number is not yet present
(`if (!answers[questionNum]) answers[questionNum] = answerText`). -/
def ainsert (m : List (Nat × List Nat)) (q : Nat) (v : List Nat) : List (Nat × List Nat) :=
  if alookup m q = none then m ++ [(q, v)] else m

/-- Split on `'\n'` (JavaScript `split('\n')`, keeping empty pieces). -/
def splitNlAux : List Nat → List Nat → List (List Nat)
  | [], acc => [acc.reverse]
  | c :: rest, acc => if c = 10 then acc.reverse :: splitNlAux rest [] else splitNlAux rest (c :: acc)

/-- Lines of the OCR text. -/
def splitNl (l : List Nat) : List (List Nat) := splitNlAux l []

/-- Replace newlines by spaces (`text.replace(/\n/g, ' ')`). -/
def flattenNl (l : List Nat) : List Nat := l.map (fun c => if c = 10 then 32 else c)

/-- Process one line of the first tier: skip lines longer than 100
characters after trimming, try the pattern cascade, trim the captured
answer, upper-case it when it is a bare letter A–E, and record it if the
question number lies in `[1, 200]` and the answer is non-empty. -/
def processLine (m : List (Nat × List Nat)) (line : List Nat) : List (Nat × List Nat) :=
  let t := trimL line
  if 100 < t.length then m
  else
    match firstPattern t with
    | some (q, a) =>
      let a1 := trimL a
      let a2 := if (match a1 with | [c] => aeAny c | _ => false) then a1.map upperCh else a1
      if 0 < q ∧ q ≤ 200 ∧ a2 ≠ [] then ainsert m q a2 else m
    | none => m

/-- Separator class `[.\)\:\-]` of the inline-pair tier. -/
def sepT2 (c : Nat) : Bool := c = 46 || c = 41 || c = 58 || c = 45

/-- Trailing boundary class of the inline-pair tier (`(?:\s|[.\)\,]|$)`). -/
def boundT2 (c : Nat) : Bool := jsWs c || c = 46 || c = 41 || c = 44

/-- Attempt of `/(\d+)\s*[.\)\:\-]?\s*([A-Ea-e])(?:\s|[.\)\,]|$)/i` at the
current position, returning question number, letter and the remainder
after the whole match. -/
def matchSimpleAt (l : List Nat) : Option (Nat × Nat × List Nat) :=
  let ds := takeDigits l
  if ds = [] then none
  else
    let r1 := (dropDigits l).dropWhile (fun c => jsWs c)
    let r2 := match r1 with
      | c :: rest => if sepT2 c then rest else r1
      | [] => r1
    match r2.dropWhile (fun c => jsWs c) with
    | c :: rest =>
      if aeAny c then
        match rest with
        | [] => some (digitsVal ds, c, [])
        | d :: rest2 => if boundT2 d then some (digitsVal ds, c, rest2) else none
      else none
    | [] => none

/-- Global scan of the inline-pair pattern: leftmost match, resume after
the matched text (`lastIndex` semantics); the fuel is the remaining length,
enough since every match consumes at least one character. -/
def tier2Scan : Nat → List Nat → List (Nat × Nat)
  | 0, _ => []
  | _ + 1, [] => []
  | fuel + 1, c :: rest =>
    match matchSimpleAt (c :: rest) with
    | some (q, a, after) => (q, a) :: tier2Scan fuel after
    | none => tier2Scan fuel rest

/-- Boundary class `[\s\n\r.,;:()]` of the sequential-letter pattern. -/
def bCh (c : Nat) : Bool := jsWs c || c = 46 || c = 44 || c = 59 || c = 58 || c = 40 || c = 41

/-- Body of `/(?:^|[\s\n\r.,;:()])\s*([A-Ea-e])\s*(?:$|[\s\n\r.,;:()])/gm`
after its leading boundary: whitespace run, letter, trailing whitespace
run, closing boundary.  The trailing `(?:$|[class])` prefers the
zero-width `$` (before a line terminator or at the end); when the
character after the whitespace run fits neither alternative the run gives
back its last character, which is itself in the class.  Returns the
matched text (needed later for the `[A-E]` filter) and the remainder. -/
def tier3Body (pre : List Nat) (m : List Nat) : Option (List Nat × List Nat) :=
  let ws1 := m.takeWhile (fun c => jsWs c)
  match m.drop ws1.length with
  | c :: t =>
    if aeAny c then
      let r := t.takeWhile (fun c => jsWs c)
      let u := t.drop r.length
      match u with
      | [] => some (pre ++ ws1 ++ [c] ++ r, [])
      | d :: urest =>
        if isLineTerm d then some (pre ++ ws1 ++ [c] ++ r, u)
        else if bCh d then some (pre ++ ws1 ++ [c] ++ r ++ [d], urest)
        else if r = [] then none
        else
          let lastWs := r.getLastD 0
          if isLineTerm lastWs then some (pre ++ ws1 ++ [c] ++ r.dropLast, lastWs :: u)
          else some (pre ++ ws1 ++ [c] ++ r, u)
    else none
  | [] => none

/-- Attempt of the sequential-letter pattern at one position:
the leading `(?:^|[class])` first tries the zero-width line start (`m`
flag), then consumes one class character. -/
def tier3MatchAt (atLineStart : Bool) (l : List Nat) : Option (List Nat × List Nat) :=
  match (if atLineStart then tier3Body [] l else none) with
  | some res => some res
  | none =>
    match l with
    | c :: rest => if bCh c then tier3Body [c] rest else none
    | [] => none

/-- Global scan of the sequential-letter pattern, collecting the matched
texts; the flag records whether the current position follows a line
terminator. -/
def tier3Scan : Nat → Bool → List Nat → List (List Nat)
  | 0, _, _ => []
  | _ + 1, _, [] => []
  | fuel + 1, atStart, c :: rest =>
    match tier3MatchAt atStart (c :: rest) with
    | some (m0, after) => m0 :: tier3Scan fuel (isLineTerm (m0.getLastD 0)) after
    | none => tier3Scan fuel (isLineTerm c) rest

/-- Whether a cleaned letter passes the `/^[A-E]$/` test. -/
def isUpperAe (w : List Nat) : Bool :=
  match w with
  | [c] => 65 ≤ c && c ≤ 69
  | _ => false

/-- Positional assignment of the sequential-letter tier: the first
`expectedCount` cleaned letters go to questions 1, 2, … when the slot is
free and the letter passes the `[A-E]` test. -/
def tier3Assign (m : List (Nat × List Nat)) (letters : List (List Nat)) : List (Nat × List Nat) :=
  letters.enum.foldl (fun acc iw =>
    if alookup acc (iw.1 + 1) = none ∧ isUpperAe iw.2 then ainsert acc (iw.1 + 1) iw.2 else acc) m

/-- Translation of `extractStudentAnswers`: the three-tier cascade.  Tier 1
scans the non-blank trimmed lines with the pattern cascade; tier 2 runs
when fewer than `expectedCount / 2` answers were found, scanning the
newline-flattened text for inline number–letter pairs bounded by
`expectedCount`; tier 3 runs when fewer than `expectedCount / 3` answers
exist, assigning standalone letters positionally when at least
`expectedCount * 0.5` of them were matched. -/
def extractStudentAnswers (text : List Nat) (expectedCount : Nat) : List (Nat × List Nat) :=
  let lines := (splitNl text).filter (fun l => trimL l ≠ [])
  let m1 := lines.foldl processLine []
  let m2 :=
    if (m1.length : ℚ) < (expectedCount : ℚ) / 2 then
      let flat := flattenNl text
      (tier2Scan flat.length flat).foldl (fun acc qa =>
        if 0 < qa.1 ∧ qa.1 ≤ expectedCount ∧ alookup acc qa.1 = none
        then acc ++ [(qa.1, [upperCh qa.2])] else acc) m1
    else m1
  if (m2.length : ℚ) < (expectedCount : ℚ) / 3 then
    let res := tier3Scan (text.length + 1) true text
    if res ≠ [] ∧ (expectedCount : ℚ) * 0.5 ≤ (res.length : ℚ) then
      tier3Assign m2 ((res.map (fun w => (trimL w).map upperCh)).take expectedCount)
    else m2
  else m2

theorem hasSub_nil_right (l : List Nat) : hasSub l [] = true := by
  cases l <;> simp [hasSub, startsWithL]

theorem shortAnswerOverlap_review (s : List Nat) :
    ∀ cs, (shortAnswerOverlap s cs).isCorrect = true →
      (shortAnswerOverlap s cs).needsReview = true := by
  intro cs
  induction cs with
  | nil => intro h; simp [shortAnswerOverlap] at h
  | cons c rest ih =>
    by_cases h8 : (0.8 : ℚ) ≤ calculateWordOverlap s c
    · simp [shortAnswerOverlap, h8]
    · by_cases h5 : (0.5 : ℚ) ≤ calculateWordOverlap s c
      · simp [shortAnswerOverlap, h8, h5]
      · simpa [shortAnswerOverlap, h8, h5] using ih

theorem fillInFuzzy_eq_find (s : List Nat) :
    ∀ cs, fillInFuzzy s cs =
      match cs.find? (fun c => decide ((0.75 : ℚ) ≤ calculateSimilarity s c)) with
      | some c =>
        if (0.9 : ℚ) ≤ calculateSimilarity s c then ⟨true, 0.85, false⟩
        else ⟨false, 0.6, true⟩
      | none => ⟨false, 0.8, false⟩ := by
  intro cs
  induction cs with
  | nil => rfl
  | cons c rest ih =>
    by_cases h75 : (0.75 : ℚ) ≤ calculateSimilarity s c
    · by_cases h9 : (0.9 : ℚ) ≤ calculateSimilarity s c
      · simp [fillInFuzzy, List.find?, h75, h9]
      · simp [fillInFuzzy, List.find?, h75, h9]
    · have h9 : ¬ (0.9 : ℚ) ≤ calculateSimilarity s c := fun h =>
        h75 (le_trans (by norm_num) h)
      simpa [fillInFuzzy, List.find?, h75, h9] using ih

/-- C1: the spec's first math-tolerance example contradicts the code (and
the spec's own rule): grading "10.05" against "10" with tolerance 0.01
yields isCorrect = true, since |10.05 − 10| = 0.05 ≤ 0.1 = |10| × 0.01. -/
theorem c1_tolerance_example_refuted :
    (gradeQuestion (codes "10.05") (codes "10") .math ⟨1, [], 0.01⟩).isCorrect = true ∧
    |(10.05 : ℚ) - 10| ≤ |(10 : ℚ)| * 0.01 := by decide

/-- C1 (amended): both example gradings are correct ("10.05" differs by
0.5 %, within the 1 % tolerance), and whenever both normalized answers
parse as numbers the verdict is exactly the relative-tolerance rule
|student − correct| ≤ |correct × tolerance|. -/
theorem c1_math_tolerance :
    (gradeQuestion (codes "10.05") (codes "10") .math ⟨1, [], 0.01⟩).isCorrect = true ∧
    (gradeQuestion (codes "10.005") (codes "10") .math ⟨1, [], 0.01⟩).isCorrect = true ∧
    ∀ (s c : List Nat) (pp tol : ℚ) (vs : List (List Nat)) (a b : ℚ),
      parseNumber (normalizeAnswer s .math) = some a →
      parseNumber (normalizeAnswer c .math) = some b →
      (gradeQuestion s c .math ⟨pp, vs, tol⟩).isCorrect = decide (|a - b| ≤ |b * tol|) := by
  refine ⟨by decide, by decide, ?_⟩
  intro s c pp tol vs a b ha hb
  simp [gradeQuestion, gradeSwitch, gradeMath, ha, hb]

theorem c1_math_tolerance_witness :
    (gradeQuestion (codes "10.005") (codes "10") .math ⟨1, [], 0.01⟩).isCorrect =
      decide (|(2001 : ℚ)/200 - 10| ≤ |(10 : ℚ) * 0.01|) :=
  c1_math_tolerance.2.2 (codes "10.005") (codes "10") 1 0.01 [] (2001/200) 10
    (by decide) (by decide)

/-- C2: refuted as stated — the fill-in branch accepts at edit-distance
similarity 0.9 (a fuzzy accept, the student answer is not in the
candidate-correct set) with needsReview = false. -/
theorem c2_fuzzy_accept_without_review :
    (gradeQuestion (codes "abcdefghij") (codes "abcdefghik") .fill_in ⟨1, [], 0.01⟩).isCorrect
      = true ∧
    (gradeQuestion (codes "abcdefghij") (codes "abcdefghik") .fill_in ⟨1, [], 0.01⟩).needsReview
      = false ∧
    normalizeAnswer (codes "abcdefghij") .fill_in ∉
      [normalizeAnswer (codes "abcdefghik") .fill_in] := by decide

/-- C2 (amended): for short-answer grading the invariant does hold — every
accepting verdict whose normalized student answer is not an exact member of
the candidate-correct set (containment or word-overlap accept) carries
needsReview = true.  The fill-in similarity-0.9 accept and the math
tolerance accept do not set the flag. -/
theorem c2_short_answer_fuzzy_review :
    ∀ (s c : List Nat) (pp tol : ℚ) (vs : List (List Nat)),
      (gradeQuestion s c .short_answer ⟨pp, vs, tol⟩).isCorrect = true →
      normalizeAnswer s .short_answer ∉
        (normalizeAnswer c .short_answer ::
          vs.map (fun v => normalizeAnswer v .short_answer)) →
      (gradeQuestion s c .short_answer ⟨pp, vs, tol⟩).needsReview = true := by
  intro s c pp tol vs hcor hm
  have hc : (gradeShortAnswer (normalizeAnswer s .short_answer)
      ((normalizeAnswer c .short_answer) ::
        vs.map (fun v => normalizeAnswer v .short_answer))).isCorrect = true := hcor
  show (gradeShortAnswer (normalizeAnswer s .short_answer)
      ((normalizeAnswer c .short_answer) ::
        vs.map (fun v => normalizeAnswer v .short_answer))).needsReview = true
  unfold gradeShortAnswer at hc ⊢
  rw [if_neg hm] at hc ⊢
  by_cases hcontain : shortAnswerContain (normalizeAnswer s .short_answer)
      ((normalizeAnswer c .short_answer) ::
        vs.map (fun v => normalizeAnswer v .short_answer)) = true
  · simp [hcontain]
  · simp only [hcontain, Bool.false_eq_true, if_false] at hc ⊢
    exact shortAnswerOverlap_review _ _ hc

theorem c2_short_answer_fuzzy_review_witness :
    (gradeQuestion (codes "the cat") (codes "cat") .short_answer ⟨1, [], 0.01⟩).needsReview
      = true :=
  c2_short_answer_fuzzy_review (codes "the cat") (codes "cat") 1 0.01 []
    (by decide) (by decide)

/-- C4: refuted as stated — candidates are scanned in order and the first
one reaching similarity 0.75 decides, so a verdict can be "flag for
review" (incorrect, confidence 0.6) even though a later candidate has
similarity ≥ 0.9: here the variant has similarity 0.9 but the primary
answer (similarity 0.8) is reached first. -/
theorem c4_later_candidate_preempted :
    (9 : ℚ)/10 ≤ calculateSimilarity (normalizeAnswer (codes "abcdefghij") .fill_in)
      (normalizeAnswer (codes "abcdefghix") .fill_in) ∧
    normalizeAnswer (codes "abcdefghij") .fill_in ∉
      [normalizeAnswer (codes "abcdefghxx") .fill_in,
       normalizeAnswer (codes "abcdefghix") .fill_in] ∧
    (gradeQuestion (codes "abcdefghij") (codes "abcdefghxx") .fill_in
      ⟨1, [codes "abcdefghix"], 0.01⟩).isCorrect = false := by decide

/-- C4 (amended): for a fill-in student answer that is not an exact member
of the candidate-correct set, the first candidate in list order whose
similarity reaches 0.75 decides the verdict: similarity ≥ 0.9 gives
correct, confidence 0.85, no review; similarity in [0.75, 0.9) gives
incorrect, confidence 0.6, review; if no candidate reaches 0.75 the
verdict is incorrect, confidence 0.8, no review. -/
theorem c4_fill_in_first_threshold_decides :
    ∀ (s : List Nat) (cs : List (List Nat)), s ∉ cs →
      gradeFillIn s cs =
        match cs.find? (fun c => decide ((0.75 : ℚ) ≤ calculateSimilarity s c)) with
        | some c =>
          if (0.9 : ℚ) ≤ calculateSimilarity s c then ⟨true, 0.85, false⟩
          else ⟨false, 0.6, true⟩
        | none => ⟨false, 0.8, false⟩ := by
  intro s cs h
  unfold gradeFillIn
  rw [if_neg h]
  exact fillInFuzzy_eq_find s cs

theorem c4_fill_in_first_threshold_decides_witness :
    gradeFillIn (codes "abc") [codes "wxyz"] = ⟨false, 0.8, false⟩ := by
  rw [c4_fill_in_first_threshold_decides (codes "abc") [codes "wxyz"] (by decide)]
  decide

/-- C5: multiple-choice normalization maps any string whose shared
normalized form begins with a letter a–e to just that lower-case letter
(the regex `/^([a-e])[\.\)\:]?\s*/` is a prefix match, so the optional
punctuation and whitespace constrain nothing), and returns every other
normalized string unchanged; in particular "B", "b)" and "B." all
normalize to "b". -/
theorem c5_multiple_choice_normalize :
    (normalizeAnswer (codes "B") .multiple_choice = codes "b" ∧
     normalizeAnswer (codes "b)") .multiple_choice = codes "b" ∧
     normalizeAnswer (codes "B.") .multiple_choice = codes "b") ∧
    ∀ s : List Nat,
      normalizeAnswer s .multiple_choice =
        match sharedNorm s with
        | c :: rest => if aeLower c then [c] else c :: rest
        | [] => [] := by
  refine ⟨by decide, ?_⟩
  intro s
  by_cases h : s = []
  · subst h; decide
  · simp [normalizeAnswer, h]

/-- C6: the payout is binary for every input: pointsEarned equals
pointsPossible exactly when the verdict is correct and 0 otherwise, hence
always lies in {0, pointsPossible}. -/
theorem c6_binary_payout :
    ∀ (s c : List Nat) (t : QuestionType) (pp tol : ℚ) (vs : List (List Nat)),
      (gradeQuestion s c t ⟨pp, vs, tol⟩).pointsEarned =
        (if (gradeQuestion s c t ⟨pp, vs, tol⟩).isCorrect then pp else 0) ∧
      ((gradeQuestion s c t ⟨pp, vs, tol⟩).pointsEarned = 0 ∨
       (gradeQuestion s c t ⟨pp, vs, tol⟩).pointsEarned = pp) := by
  intro s c t pp tol vs
  have hp : (gradeQuestion s c t ⟨pp, vs, tol⟩).pointsEarned =
      (if (gradeQuestion s c t ⟨pp, vs, tol⟩).isCorrect then pp else 0) := rfl
  refine ⟨hp, ?_⟩
  rw [hp]
  by_cases h : (gradeQuestion s c t ⟨pp, vs, tol⟩).isCorrect = true
  · right; rw [if_pos h]
  · left; rw [if_neg h]

/-- C7: refuted as stated — when an accepted variant normalizes to the
empty string, a blank student answer hits the exact-match branch instead
(confidence 0.95, no review), even though the primary correct answer is
non-empty. -/
theorem c7_empty_variant_exact_match :
    normalizeAnswer (codes " ") .short_answer = [] ∧
    normalizeAnswer (codes "x") .short_answer ≠ [] ∧
    (gradeQuestion (codes " ") (codes "x") .short_answer ⟨1, [codes ""], 0.01⟩).confidence
      = 0.95 ∧
    (gradeQuestion (codes " ") (codes "x") .short_answer ⟨1, [codes ""], 0.01⟩).needsReview
      = false := by decide

/-- C7 (amended): for a short-answer question whose normalized correct
answer is non-empty and none of whose accepted variants normalizes to the
empty string, a student answer normalizing to the empty string is accepted
by the containment branch: correct, confidence 0.75, needsReview = true
(the empty string is a substring of every candidate). -/
theorem c7_blank_student_containment :
    ∀ (s c : List Nat) (pp tol : ℚ) (vs : List (List Nat)),
      normalizeAnswer s .short_answer = [] →
      normalizeAnswer c .short_answer ≠ [] →
      (∀ v ∈ vs, normalizeAnswer v .short_answer ≠ []) →
      gradeQuestion s c .short_answer ⟨pp, vs, tol⟩ =
        ⟨true, 0.75, pp, true, some "Manual review recommended"⟩ := by
  intro s c pp tol vs hs hc hvs
  have hmem : normalizeAnswer s .short_answer ∉
      (normalizeAnswer c .short_answer ::
        vs.map (fun v => normalizeAnswer v .short_answer)) := by
    rw [hs]
    intro h
    rcases List.mem_cons.mp h with h1 | h2
    · exact hc h1.symm
    · rcases List.mem_map.mp h2 with ⟨v, hv, hv2⟩
      exact hvs v hv hv2
  have hcontain : shortAnswerContain (normalizeAnswer s .short_answer)
      (normalizeAnswer c .short_answer ::
        vs.map (fun v => normalizeAnswer v .short_answer)) = true := by
    rw [hs]
    simp [shortAnswerContain, hasSub_nil_right]
  have hv : gradeShortAnswer (normalizeAnswer s .short_answer)
      (normalizeAnswer c .short_answer ::
        vs.map (fun v => normalizeAnswer v .short_answer)) = ⟨true, 0.75, true⟩ := by
    unfold gradeShortAnswer
    rw [if_neg hmem]
    simp [hcontain]
  simp only [gradeQuestion, gradeSwitch]
  simp [hv]

theorem c7_blank_student_containment_witness :
    gradeQuestion (codes "   ") (codes "paris") .short_answer ⟨2, [], 0.01⟩ =
      ⟨true, 0.75, 2, true, some "Manual review recommended"⟩ :=
  c7_blank_student_containment (codes "   ") (codes "paris") 2 0.01 []
    (by decide) (by decide) (by simp)

/-- C8: the source's three-disjunct conflict test agrees with the
half-open overlap predicate of the spec on all intervals whose start lies
strictly before their end. -/
theorem c8_conflict_iff_overlap :
    ∀ cs ce bs be : ℤ, cs < ce → bs < be →
      (slotConflict cs ce bs be = true ↔ overlapsHalfOpen cs ce bs be) := by
  intro cs ce bs be h1 h2
  simp only [slotConflict, overlapsHalfOpen, Bool.or_eq_true, Bool.and_eq_true,
    decide_eq_true_eq]
  omega

theorem c8_conflict_iff_overlap_witness : overlapsHalfOpen 0 10 5 15 :=
  (c8_conflict_iff_overlap 0 10 5 15 (by decide) (by decide)).mp (by decide)

/-- C9: recording is insert-if-absent (a later answer for an
already-present question number never changes the mapping, in every tier),
and the concrete duplicate example keeps the first occurrence. -/
theorem c9_first_occurrence_wins :
    (∀ (m : List (Nat × List Nat)) (q : Nat) (v w : List Nat),
      alookup m q = some w → ainsert m q v = m) ∧
    extractStudentAnswers (codes "5. A\n5. B") 10 = [(5, codes "A")] := by
  constructor
  · intro m q v w h
    unfold ainsert
    rw [h]
    simp
  · decide

theorem c9_first_occurrence_wins_witness :
    ainsert [(5, codes "A")] 5 (codes "B") = [(5, codes "A")] :=
  c9_first_occurrence_wins.1 [(5, codes "A")] 5 (codes "B") (codes "A") (by decide)

theorem mem_trimL {c : Nat} {l : List Nat} (h : c ∈ trimL l) : c ∈ l := by
  unfold trimL at h
  rw [List.mem_reverse] at h
  have h2 := (List.dropWhile_sublist (fun c => jsWs c)).subset h
  rw [List.mem_reverse] at h2
  exact (List.dropWhile_sublist (fun c => jsWs c)).subset h2

theorem takeDigits_nil {l : List Nat} (h : ∀ c ∈ l, digitCh c = false) :
    takeDigits l = [] := by
  cases l with
  | nil => rfl
  | cons c t => simp [takeDigits, List.takeWhile_cons, h c (List.mem_cons_self c t)]

theorem matchP1_none {l : List Nat} (h : ∀ c ∈ l, digitCh c = false) : matchP1 l = none := by
  unfold matchP1
  rw [takeDigits_nil h]
  simp

theorem matchP2_none {l : List Nat} (h : ∀ c ∈ l, digitCh c = false) : matchP2 l = none := by
  unfold matchP2
  rw [takeDigits_nil h]
  simp

theorem matchP4_none {l : List Nat} (h : ∀ c ∈ l, digitCh c = false) : matchP4 l = none := by
  unfold matchP4
  rw [takeDigits_nil h]
  simp

theorem matchP5_none {l : List Nat} (h : ∀ c ∈ l, digitCh c = false) : matchP5 l = none := by
  unfold matchP5
  rw [takeDigits_nil h]
  simp

theorem matchP6_none {l : List Nat} (h : ∀ c ∈ l, digitCh c = false) : matchP6 l = none := by
  unfold matchP6
  rw [takeDigits_nil h]
  simp

theorem matchP3_none {l : List Nat} (h : ∀ c ∈ l, digitCh c = false) : matchP3 l = none := by
  cases l with
  | nil => rfl
  | cons c rest =>
    by_cases hc : (c = 81 || c = 113 || c = 35) = true
    · have ht := takeDigits_nil (fun d hd => h d (List.mem_cons_of_mem c hd))
      simp [matchP3, hc, ht]
    · have ht := takeDigits_nil h
      simp only [matchP3, hc, if_false, Bool.false_eq_true]
      rw [ht]
      simp

theorem matchP7_none {l : List Nat} (h : ∀ c ∈ l, digitCh c = false) : matchP7 l = none := by
  cases l with
  | nil => rfl
  | cons c rest =>
    by_cases hc : (c = 81 || c = 113 || c = 35) = true
    · simp only [matchP7, hc, if_true]
      exact matchP6_none (fun d hd => h d (List.mem_cons_of_mem c hd))
    · simp [matchP7, hc]

theorem firstPattern_none {l : List Nat} (h : ∀ c ∈ l, digitCh c = false) :
    firstPattern l = none := by
  unfold firstPattern
  simp [List.findSome?_cons, matchP1_none h, matchP2_none h, matchP3_none h, matchP4_none h,
    matchP5_none h, matchP6_none h, matchP7_none h]

theorem processLine_id {m : List (Nat × List Nat)} {line : List Nat}
    (h : ∀ c ∈ line, digitCh c = false) : processLine m line = m := by
  unfold processLine
  by_cases hl : 100 < (trimL line).length
  · rw [if_pos hl]
  · rw [if_neg hl, firstPattern_none (fun c hc => h c (mem_trimL hc))]

theorem foldl_processLine_id {lines : List (List Nat)}
    (h : ∀ li ∈ lines, ∀ c ∈ li, digitCh c = false) :
    ∀ m, lines.foldl processLine m = m := by
  induction lines with
  | nil => intro m; rfl
  | cons li rest ih =>
    intro m
    rw [List.foldl_cons, processLine_id (h li (List.mem_cons_self li rest))]
    exact ih (fun p hp c hc => h p (List.mem_cons_of_mem li hp) c hc) m

theorem mem_splitNlAux :
    ∀ (l acc p : List Nat), p ∈ splitNlAux l acc → ∀ c ∈ p, c ∈ l ∨ c ∈ acc := by
  intro l
  induction l with
  | nil =>
    intro acc p hp c hc
    simp only [splitNlAux, List.mem_singleton] at hp
    subst hp
    right
    exact List.mem_reverse.mp hc
  | cons d rest ih =>
    intro acc p hp c hc
    simp only [splitNlAux] at hp
    by_cases hd : d = 10
    · rw [if_pos hd] at hp
      rcases List.mem_cons.mp hp with h1 | h2
      · subst h1
        right
        exact List.mem_reverse.mp hc
      · rcases ih [] p h2 c hc with h3 | h3
        · exact Or.inl (List.mem_cons_of_mem d h3)
        · exact absurd h3 (List.not_mem_nil c)
    · rw [if_neg hd] at hp
      rcases ih (d :: acc) p hp c hc with h3 | h3
      · exact Or.inl (List.mem_cons_of_mem d h3)
      · rcases List.mem_cons.mp h3 with h4 | h4
        · exact Or.inl (h4 ▸ List.mem_cons_self d rest)
        · exact Or.inr h4

theorem mem_splitNl {p text : List Nat} (hp : p ∈ splitNl text) {c : Nat} (hc : c ∈ p) :
    c ∈ text := by
  rcases mem_splitNlAux text [] p hp c hc with h | h
  · exact h
  · exact absurd h (List.not_mem_nil c)

theorem matchSimpleAt_none {l : List Nat} (h : ∀ c ∈ l, digitCh c = false) :
    matchSimpleAt l = none := by
  unfold matchSimpleAt
  rw [takeDigits_nil h]
  simp

theorem tier2Scan_nil :
    ∀ (fuel : Nat) (l : List Nat), (∀ c ∈ l, digitCh c = false) → tier2Scan fuel l = [] := by
  intro fuel
  induction fuel with
  | zero => intro l h; rfl
  | succ n ih =>
    intro l h
    cases l with
    | nil => rfl
    | cons c rest =>
      simp only [tier2Scan, matchSimpleAt_none h]
      exact ih rest (fun d hd => h d (List.mem_cons_of_mem c hd))

theorem flattenNl_nodigit {text : List Nat} (h : ∀ c ∈ text, digitCh c = false) :
    ∀ c ∈ flattenNl text, digitCh c = false := by
  intro c hc
  rcases List.mem_map.mp hc with ⟨d, hd, rfl⟩
  by_cases h10 : d = 10
  · simp [h10, digitCh]
  · simp only [if_neg h10]
    exact h d hd

theorem tier3Body_none {pre m : List Nat} (h : ∀ c ∈ m, aeAny c = false) :
    tier3Body pre m = none := by
  unfold tier3Body
  dsimp only
  split
  · next c t heq =>
      have hc : c ∈ m := List.drop_subset _ m (heq ▸ List.mem_cons_self c t)
      rw [h c hc]
      simp
  · rfl

theorem tier3MatchAt_none {b : Bool} {l : List Nat} (h : ∀ c ∈ l, aeAny c = false) :
    tier3MatchAt b l = none := by
  unfold tier3MatchAt
  cases b
  · simp only [Bool.false_eq_true, if_false]
    cases l with
    | nil => rfl
    | cons c rest =>
      by_cases hb : bCh c = true
      · simp [hb, tier3Body_none (fun d hd => h d (List.mem_cons_of_mem c hd))]
      · simp [hb]
  · rw [if_pos rfl, tier3Body_none h]
    cases l with
    | nil => rfl
    | cons c rest =>
      by_cases hb : bCh c = true
      · simp [hb, tier3Body_none (fun d hd => h d (List.mem_cons_of_mem c hd))]
      · simp [hb]

theorem tier3Scan_nil :
    ∀ (fuel : Nat) (b : Bool) (l : List Nat), (∀ c ∈ l, aeAny c = false) →
      tier3Scan fuel b l = [] := by
  intro fuel
  induction fuel with
  | zero => intro b l h; rfl
  | succ n ih =>
    intro b l h
    cases l with
    | nil => rfl
    | cons c rest =>
      simp only [tier3Scan, tier3MatchAt_none h]
      exact ih _ rest (fun d hd => h d (List.mem_cons_of_mem c hd))

/-- C10: the extractor degrades to the empty mapping on text in which no
pattern can fire (no digits for the number tiers, no letters A–E for the
sequential tier), and the grading engine is total — every input yields a
verdict.  Totality itself is inherent to the embedding (both functions are
plain total functions, as their sources never throw); the content is the
degrade-to-empty behaviour. -/
theorem c10_total_degrade_empty :
    (∀ (text : List Nat) (n : Nat),
      (∀ c ∈ text, digitCh c = false) → (∀ c ∈ text, aeAny c = false) →
      extractStudentAnswers text n = []) ∧
    (∀ (s c : List Nat) (t : QuestionType) (opts : GradeOptions),
      ∃ r : GradeResult, gradeQuestion s c t opts = r) := by
  constructor
  · intro text n hd ha
    have hm1 : ((splitNl text).filter (fun l => trimL l ≠ [])).foldl processLine [] = [] :=
      foldl_processLine_id
        (fun li hli c hc => hd c (mem_splitNl (List.mem_of_mem_filter hli) hc)) []
    have h2 : tier2Scan (flattenNl text).length (flattenNl text) = [] :=
      tier2Scan_nil _ _ (flattenNl_nodigit hd)
    have h3 : tier3Scan (text.length + 1) true text = [] := tier3Scan_nil _ _ _ ha
    simp only [extractStudentAnswers, hm1, h2, h3]
    simp
  · intro s c t opts
    exact ⟨gradeQuestion s c t opts, rfl⟩

theorem c10_total_degrade_empty_witness :
    extractStudentAnswers (codes "!! ??") 5 = [] :=
  c10_total_degrade_empty.1 (codes "!! ??") 5 (by decide) (by decide)

theorem toLow_toLow (c : Nat) : toLow (toLow c) = toLow c := by
  unfold toLow
  split_ifs with h1 h2
  · simp only [Bool.and_eq_true, decide_eq_true_eq] at h1 h2
    omega
  · rfl
  · rfl

theorem jsWs_toLow {c : Nat} (h : jsWs c = false) : jsWs (toLow c) = false := by
  unfold toLow
  split_ifs with h1
  · simp only [Bool.and_eq_true, decide_eq_true_eq] at h1
    simp only [jsWs, Bool.or_eq_false_iff, Bool.and_eq_false_iff, decide_eq_false_iff_not]
    omega
  · exact h

theorem quoteCh_toLow {c : Nat} (h : quoteCh c = false) : quoteCh (toLow c) = false := by
  unfold toLow
  split_ifs with h1
  · simp only [Bool.and_eq_true, decide_eq_true_eq] at h1
    simp only [quoteCh, Bool.or_eq_false_iff, decide_eq_false_iff_not]
    omega
  · exact h

theorem aeLower_facts {c : Nat} (h : aeLower c = true) :
    toLow c = c ∧ jsWs c = false ∧ quoteCh c = false ∧ endPunct c = false := by
  simp only [aeLower, Bool.and_eq_true, decide_eq_true_eq] at h
  refine ⟨?_, ?_, ?_, ?_⟩
  · unfold toLow
    have : ¬ ((65 ≤ c && c ≤ 90) = true) := by
      simp only [Bool.and_eq_true, decide_eq_true_eq]; omega
    simp [this]
  · simp only [jsWs, Bool.or_eq_false_iff, Bool.and_eq_false_iff, decide_eq_false_iff_not]
    omega
  · simp only [quoteCh, Bool.or_eq_false_iff, decide_eq_false_iff_not]
    omega
  · simp only [endPunct, Bool.or_eq_false_iff, decide_eq_false_iff_not]
    omega

theorem mathRepl_mathRepl (c : Nat) : mathRepl (mathRepl c) = mathRepl c := by
  unfold mathRepl
  split_ifs <;> omega

theorem toLow_mathRepl {c : Nat} (h : toLow c = c) : toLow (mathRepl c) = mathRepl c := by
  unfold mathRepl
  split_ifs with h1 h2 h3
  · unfold toLow; simp
  · unfold toLow; simp
  · unfold toLow; simp
  · exact h

theorem jsWs_mathRepl {c : Nat} (h : jsWs c = false) : jsWs (mathRepl c) = false := by
  unfold mathRepl
  split_ifs with h1 h2 h3
  · simp [jsWs]
  · simp [jsWs]
  · simp [jsWs]
  · exact h

theorem quoteCh_mathRepl {c : Nat} (h : quoteCh c = false) : quoteCh (mathRepl c) = false := by
  unfold mathRepl
  split_ifs with h1 h2 h3
  · simp [quoteCh]
  · simp [quoteCh]
  · simp [quoteCh]
  · exact h

theorem endPunct_mathRepl {c : Nat} (h : endPunct c = false) : endPunct (mathRepl c) = false := by
  unfold mathRepl
  split_ifs with h1 h2 h3
  · simp [endPunct]
  · simp [endPunct]
  · simp [endPunct]
  · exact h

theorem mathRepl_ne_44 {c : Nat} (h : c ≠ 44) : mathRepl c ≠ 44 := by
  unfold mathRepl
  split_ifs <;> omega

theorem endPunct_44 : endPunct 44 = true := by decide

theorem dropWhile_eq_self_of {p : Nat → Bool} {l : List Nat} (h : ∀ c ∈ l, p c = false) :
    l.dropWhile p = l := by
  cases l with
  | nil => rfl
  | cons c rest => rw [List.dropWhile_cons, h c (List.mem_cons_self c rest)]; simp

theorem dropWhile_dropWhile_self {p : Nat → Bool} :
    ∀ l : List Nat, (l.dropWhile p).dropWhile p = l.dropWhile p := by
  intro l
  induction l with
  | nil => rfl
  | cons c rest ih =>
    by_cases hc : p c = true
    · simp [List.dropWhile_cons, hc, ih]
    · simp [List.dropWhile_cons, hc]

theorem dropWhile_eq_self_head {p : Nat → Bool} {l : List Nat}
    (h : ∀ c, l.head? = some c → p c = false) : l.dropWhile p = l := by
  cases l with
  | nil => rfl
  | cons c rest => rw [List.dropWhile_cons, h c rfl]; simp

theorem head_not_of_dropWhile_eq_self {p : Nat → Bool} {l : List Nat}
    (h : l.dropWhile p = l) : ∀ c, l.head? = some c → p c = false := by
  intro c hc
  cases l with
  | nil => cases hc
  | cons d rest =>
    have hdc : d = c := by
      simpa using hc
    subst hdc
    by_contra hp
    rw [Bool.not_eq_false] at hp
    rw [List.dropWhile_cons, if_pos hp] at h
    have h1 := congrArg List.length h
    have h2 := (List.dropWhile_sublist (l := rest) p).length_le
    simp at h1
    omega

theorem map_id_of {f : Nat → Nat} {l : List Nat} (h : ∀ c ∈ l, f c = c) : l.map f = l := by
  induction l with
  | nil => rfl
  | cons c rest ih =>
    rw [List.map_cons, h c (List.mem_cons_self c rest),
      ih (fun d hd => h d (List.mem_cons_of_mem c hd))]

theorem filter_eq_self_of {p : Nat → Bool} {l : List Nat} (h : ∀ c ∈ l, p c = true) :
    l.filter p = l := by
  induction l with
  | nil => rfl
  | cons c rest ih =>
    rw [List.filter_cons, if_pos (h c (List.mem_cons_self c rest)),
      ih (fun d hd => h d (List.mem_cons_of_mem c hd))]

theorem trimL_id {l : List Nat} (h : ∀ c ∈ l, jsWs c = false) : trimL l = l := by
  unfold trimL
  rw [dropWhile_eq_self_of h,
    dropWhile_eq_self_of (fun c hc => h c (List.mem_reverse.mp hc)), List.reverse_reverse]

theorem collapseWs_id : ∀ l : List Nat, (∀ c ∈ l, jsWs c = false) → collapseWs l = l := by
  intro l
  induction l with
  | nil => intro h; rfl
  | cons c rest ih =>
    intro h
    have hc := h c (List.mem_cons_self c rest)
    cases rest with
    | nil => simp [collapseWs, hc]
    | cons d r2 =>
      have he : collapseWs (c :: d :: r2) =
          if jsWs c then
            (if jsWs d then collapseWs (d :: r2) else 32 :: collapseWs (d :: r2))
          else c :: collapseWs (d :: r2) := rfl
      rw [he, if_neg (by simp [hc]), ih (fun x hx => h x (List.mem_cons_of_mem c hx))]

theorem removeQuotes_id {l : List Nat} (h : ∀ c ∈ l, quoteCh c = false) :
    removeQuotes l = l := by
  unfold removeQuotes
  exact filter_eq_self_of (fun c hc => by rw [h c hc]; rfl)

theorem mem_stripEndPunct {c : Nat} {l : List Nat} (h : c ∈ stripEndPunct l) : c ∈ l := by
  unfold stripEndPunct at h
  rw [List.mem_reverse] at h
  have := (List.dropWhile_sublist (fun c => endPunct c)).subset h
  exact List.mem_reverse.mp this

theorem stripEndPunct_idem (l : List Nat) :
    stripEndPunct (stripEndPunct l) = stripEndPunct l := by
  unfold stripEndPunct
  rw [List.reverse_reverse, dropWhile_dropWhile_self]

theorem sharedNorm_fixed {l : List Nat}
    (h1 : ∀ c ∈ l, toLow c = c) (h2 : ∀ c ∈ l, jsWs c = false)
    (h3 : ∀ c ∈ l, quoteCh c = false) (h4 : stripEndPunct l = l) :
    sharedNorm l = l := by
  unfold sharedNorm
  rw [trimL_id h2]
  unfold lowerAll
  rw [map_id_of h1, removeQuotes_id h3, collapseWs_id l h2, h4]

theorem sharedNorm_eq_strip_lower {l : List Nat}
    (h2 : ∀ c ∈ l, jsWs c = false) (h3 : ∀ c ∈ l, quoteCh c = false) :
    sharedNorm l = stripEndPunct (lowerAll l) := by
  unfold sharedNorm
  rw [trimL_id h2]
  have hq : ∀ c ∈ lowerAll l, quoteCh c = false := by
    intro c hc
    rcases List.mem_map.mp hc with ⟨d, hd, rfl⟩
    exact quoteCh_toLow (h3 d hd)
  have hw : ∀ c ∈ lowerAll l, jsWs c = false := by
    intro c hc
    rcases List.mem_map.mp hc with ⟨d, hd, rfl⟩
    exact jsWs_toLow (h2 d hd)
  rw [removeQuotes_id hq, collapseWs_id _ hw]

theorem sharedNorm_facts {l : List Nat}
    (h2 : ∀ c ∈ l, jsWs c = false) (h3 : ∀ c ∈ l, quoteCh c = false) :
    (∀ c ∈ sharedNorm l, toLow c = c ∧ jsWs c = false ∧ quoteCh c = false) ∧
    stripEndPunct (sharedNorm l) = sharedNorm l := by
  have he := sharedNorm_eq_strip_lower h2 h3
  constructor
  · intro c hc
    rw [he] at hc
    have hc2 : c ∈ lowerAll l := mem_stripEndPunct hc
    rcases List.mem_map.mp hc2 with ⟨d, hd, rfl⟩
    exact ⟨toLow_toLow d, jsWs_toLow (h2 d hd), quoteCh_toLow (h3 d hd)⟩
  · rw [he]
    exact stripEndPunct_idem _

theorem sharedNorm_of_facts {n : List Nat}
    (hf : ∀ c ∈ n, toLow c = c ∧ jsWs c = false ∧ quoteCh c = false)
    (hs : stripEndPunct n = n) : sharedNorm n = n :=
  sharedNorm_fixed (fun c hc => (hf c hc).1) (fun c hc => (hf c hc).2.1)
    (fun c hc => (hf c hc).2.2) hs

theorem mathNorm_eq_of_no_ws {n : List Nat} (hw : ∀ c ∈ n, jsWs c = false) :
    mathNorm n = (n.map mathRepl).filter (fun c => c ≠ 44) := by
  unfold mathNorm
  rw [show n.filter (fun c => !jsWs c) = n from
    filter_eq_self_of (fun c hc => by rw [hw c hc]; rfl)]

theorem mathNorm_facts {n : List Nat}
    (hf : ∀ c ∈ n, toLow c = c ∧ jsWs c = false ∧ quoteCh c = false)
    (hs : stripEndPunct n = n) :
    (∀ c ∈ mathNorm n, toLow c = c ∧ jsWs c = false ∧ quoteCh c = false) ∧
    stripEndPunct (mathNorm n) = mathNorm n ∧ mathNorm (mathNorm n) = mathNorm n := by
  have hu_eq := mathNorm_eq_of_no_ws (fun c hc => (hf c hc).2.1)
  have humem : ∀ c ∈ mathNorm n, ∃ d ∈ n, c = mathRepl d := by
    intro c hc
    rw [hu_eq] at hc
    have hc2 : c ∈ n.map mathRepl := (List.mem_filter.mp hc).1
    rcases List.mem_map.mp hc2 with ⟨d, hd, rfl⟩
    exact ⟨d, hd, rfl⟩
  have hufacts : ∀ c ∈ mathNorm n, toLow c = c ∧ jsWs c = false ∧ quoteCh c = false := by
    intro c hc
    rcases humem c hc with ⟨d, hd, rfl⟩
    exact ⟨toLow_mathRepl (hf d hd).1, jsWs_mathRepl (hf d hd).2.1,
      quoteCh_mathRepl (hf d hd).2.2⟩
  have hrev : (mathNorm n).reverse = (n.reverse.map mathRepl).filter (fun c => c ≠ 44) := by
    rw [hu_eq, ← List.filter_reverse, ← List.map_reverse]
  refine ⟨hufacts, ?_, ?_⟩
  · have hdw : n.reverse.dropWhile (fun c => endPunct c) = n.reverse := by
      have := congrArg List.reverse hs
      rwa [stripEndPunct, List.reverse_reverse] at this
    have hgoal : (mathNorm n).reverse.dropWhile (fun c => endPunct c) = (mathNorm n).reverse := by
      rw [hrev]
      cases hn : n.reverse with
      | nil => rfl
      | cons c0 rr =>
        have hc0 : endPunct c0 = false := by
          apply head_not_of_dropWhile_eq_self hdw
          rw [hn]
          rfl
        have hne : c0 ≠ 44 := by
          intro hcon
          rw [hcon, endPunct_44] at hc0
          cases hc0
        have hp : (decide (mathRepl c0 ≠ 44)) = true := by
          simp [mathRepl_ne_44 hne]
        rw [List.map_cons, List.filter_cons, if_pos hp, List.dropWhile_cons,
          endPunct_mathRepl hc0]
        simp
    unfold stripEndPunct
    rw [hgoal, List.reverse_reverse]
  · rw [mathNorm_eq_of_no_ws (fun c hc => (hufacts c hc).2.1)]
    rw [map_id_of (fun c hc => by
      rcases humem c hc with ⟨d, hd, rfl⟩
      exact mathRepl_mathRepl d)]
    apply filter_eq_self_of
    intro c hc
    rw [hu_eq] at hc
    exact (List.mem_filter.mp hc).2

theorem stripEndPunct_singleton {c : Nat} (h : endPunct c = false) :
    stripEndPunct [c] = [c] := by
  unfold stripEndPunct
  rw [List.reverse_singleton, dropWhile_eq_self_of (fun x hx => by
    rcases List.mem_singleton.mp hx with rfl
    exact h), List.reverse_singleton]

/-- C3: refuted — stripping the trailing punctuation of "a ." leaves the
trailing space "a ", which only a second normalization pass trims away, so
normalize(normalize("a .", fill_in), fill_in) ≠ normalize("a .", fill_in). -/
theorem c3_normalize_not_idempotent :
    normalizeAnswer (normalizeAnswer (codes "a .") .fill_in) .fill_in ≠
      normalizeAnswer (codes "a .") .fill_in := by decide

/-- C3 (amended): normalization is idempotent for every question type on
every string containing no whitespace and no quote characters; in general
the trailing-punctuation strip can expose whitespace at an end of the
string (e.g. "a ."), which only the second pass trims. -/
theorem c3_normalize_idempotent_no_ws :
    ∀ (t : QuestionType) (s : List Nat),
      (∀ c ∈ s, jsWs c = false) → (∀ c ∈ s, quoteCh c = false) →
      normalizeAnswer (normalizeAnswer s t) t = normalizeAnswer s t := by
  intro t s hws hq
  by_cases hs : s = []
  · subst hs
    simp [normalizeAnswer]
  · obtain ⟨hf, hstrip⟩ := sharedNorm_facts hws hq
    have hfix : sharedNorm (sharedNorm s) = sharedNorm s := sharedNorm_of_facts hf hstrip
    cases t with
    | fill_in =>
      have h1 : normalizeAnswer s .fill_in = sharedNorm s := by simp [normalizeAnswer, hs]
      rw [h1]
      by_cases hn : sharedNorm s = []
      · rw [hn]; simp [normalizeAnswer]
      · simp [normalizeAnswer, hn, hfix]
    | short_answer =>
      have h1 : normalizeAnswer s .short_answer = sharedNorm s := by simp [normalizeAnswer, hs]
      rw [h1]
      by_cases hn : sharedNorm s = []
      · rw [hn]; simp [normalizeAnswer]
      · simp [normalizeAnswer, hn, hfix]
    | unknown =>
      have h1 : normalizeAnswer s .unknown = sharedNorm s := by simp [normalizeAnswer, hs]
      rw [h1]
      by_cases hn : sharedNorm s = []
      · rw [hn]; simp [normalizeAnswer]
      · simp [normalizeAnswer, hn, hfix]
    | true_false =>
      have h1 : normalizeAnswer s .true_false =
          (if sharedNorm s ∈ trueWords then codes "true"
           else if sharedNorm s ∈ falseWords then codes "false" else sharedNorm s) := by
        simp [normalizeAnswer, hs]
      rw [h1]
      by_cases ht : sharedNorm s ∈ trueWords
      · rw [if_pos ht]; decide
      · by_cases hfa : sharedNorm s ∈ falseWords
        · rw [if_neg ht, if_pos hfa]; decide
        · rw [if_neg ht, if_neg hfa]
          by_cases hn : sharedNorm s = []
          · rw [hn]; simp [normalizeAnswer]
          · simp [normalizeAnswer, hn, hfix, ht, hfa]
    | math =>
      have h1 : normalizeAnswer s .math = mathNorm (sharedNorm s) := by
        simp [normalizeAnswer, hs]
      rw [h1]
      obtain ⟨huf, hustrip, huu⟩ := mathNorm_facts hf hstrip
      by_cases hn : mathNorm (sharedNorm s) = []
      · rw [hn]; simp [normalizeAnswer]
      · have hufix : sharedNorm (mathNorm (sharedNorm s)) = mathNorm (sharedNorm s) :=
          sharedNorm_of_facts huf hustrip
        simp [normalizeAnswer, hn, hufix, huu]
    | multiple_choice =>
      have h1 : normalizeAnswer s .multiple_choice =
          (match sharedNorm s with
           | c :: rest => if aeLower c then [c] else c :: rest
           | [] => []) := by
        simp [normalizeAnswer, hs]
      rw [h1]
      cases hn : sharedNorm s with
      | nil => simp [normalizeAnswer]
      | cons c rest =>
        by_cases hae : aeLower c = true
        · have hcf := aeLower_facts hae
          have hsc : sharedNorm [c] = [c] := by
            apply sharedNorm_fixed
            · intro x hx; rcases List.mem_singleton.mp hx with rfl; exact hcf.1
            · intro x hx; rcases List.mem_singleton.mp hx with rfl; exact hcf.2.1
            · intro x hx; rcases List.mem_singleton.mp hx with rfl; exact hcf.2.2.1
            · exact stripEndPunct_singleton hcf.2.2.2
          simp [hae, normalizeAnswer, hsc]
        · have hfix2 : sharedNorm (c :: rest) = c :: rest := by rw [← hn]; exact hfix
          simp [hae, normalizeAnswer, hfix2]

theorem c3_normalize_idempotent_no_ws_witness :
    normalizeAnswer (normalizeAnswer (codes "abc.") .fill_in) .fill_in =
      normalizeAnswer (codes "abc.") .fill_in :=
  c3_normalize_idempotent_no_ws .fill_in (codes "abc.") (by decide) (by decide)
